import Mathlib

/-!
Verification development for the `alisa.cache` in-memory cache engine
(`src/index.js`, class `AlisaCache`).

The engine state is shallowly embedded: a JavaScript `Map` is an
insertion-ordered association list (`JMap`), a JavaScript `Set` is an
insertion-ordered duplicate-free list (`sadd`/`setFromList`), `Date.now()`
is an explicit `now : Nat` parameter, and every stateful method becomes a
pure function on `CacheState`.  Keys and values are generic types with
decidable equality (JS keys are arbitrary `SameValueZero`-comparable
values).  The event emitter is an external sink with no effect on engine
state and is not modelled; listener callbacks never abort an operation.
`cloneOnGet` only affects the returned copy of a value (a JSON round
trip), never the stored state, so `_clone` is the identity on our pure
values.  The per-call `priority` option is typed `Int` (the JS
`typeof priority === "number"` guard always passes for the typed model;
the default destructured value is `0`, which is a number).
-/

set_option linter.unusedSectionVars false

namespace AlisaCache

/-- A JavaScript `Map`: association list in insertion order.
A real `Map` never holds two entries with the same key. -/
abbrev JMap (K V : Type) := List (K × V)

variable {K V A : Type} [DecidableEq K] [DecidableEq V]

/-- `Map.prototype.get` (as an `Option`). -/
def get? : JMap K V → K → Option V
  | [], _ => none
  | (k', v) :: t, k => if k = k' then some v else get? t k

/-- `Map.prototype.has`. -/
def hasKey (m : JMap K V) (k : K) : Bool :=
  (get? m k).isSome

/-- `Map.prototype.set`: update in place (keeping the entry position) if
the key exists, otherwise append at the end. -/
def jset : JMap K V → K → V → JMap K V
  | [], k, v => [(k, v)]
  | (k', v') :: t, k, v => if k = k' then (k', v) :: t else (k', v') :: jset t k v

/-- `Map.prototype.delete` (state part): remove the entry with the key.
On a duplicate-free map removing the first occurrence is exact. -/
def jdel : JMap K V → K → JMap K V
  | [], _ => []
  | (k', v') :: t, k => if k = k' then t else (k', v') :: jdel t k

/-- The keys of a map, in iteration order. -/
def keyList (m : JMap K V) : List K :=
  m.map Prod.fst

/-- `Set.prototype.add`: append if absent. -/
def sadd (s : List K) (k : K) : List K :=
  if k ∈ s then s else s ++ [k]

/-- `new Set(iterable)`: insert every element in order, dropping later
duplicates. -/
def setFromList (l : List K) : List K :=
  l.foldl sadd []

/-- JS truthiness of a number-or-undefined: falsy iff absent or zero. -/
def jsFalsyInt : Option Int → Bool
  | none => true
  | some v => v = 0

/-- Eviction strategies (`validStrategies`, src/index.js:4). -/
inductive Strategy where
  | LRU
  | FIFO
  | MFU
  | CUSTOM
deriving DecidableEq

/-- Constructor options (src/index.js:26-57).  The constructor validates
`limit > 0`, the strategy name, and that `customEvict` is a function when
the strategy is CUSTOM; a custom evictor may also be supplied with any
other strategy.  A `customEvict` function receives the live `store` and
`meta` maps (src/index.js:998). -/
structure Config (K V : Type) where
  limit : Nat
  ttl : Option Int := none
  updateOnGet : Bool := false
  updateOnHas : Bool := false
  cloneOnGet : Bool := false
  overWrite : Bool := true
  strategy : Strategy := Strategy.LRU
  customEvict : Option (JMap K V → JMap K Nat → JMap K V × JMap K Nat) := none

/-- The mutable engine state (constructor fields, src/index.js:59-107).
`meta` maps a key to its last-recorded timestamp, `ttlMap` to its
absolute expiration timestamp, `priorityMap` to its priority, `tagMap`
a tag to the set of keys carrying it, `keyTags` a key to its tag set. -/
structure CacheState (K V : Type) where
  hits : Nat
  misses : Nat
  evictions : Nat
  store : JMap K V
  meta : JMap K Nat
  ttlMap : JMap K Int
  priorityMap : JMap K Int
  tagMap : JMap String (List K)
  keyTags : JMap K (List String)
deriving DecidableEq

/-- The state of a freshly constructed cache. -/
def initState : CacheState K V :=
  ⟨0, 0, 0, [], [], [], [], [], []⟩

/-- Per-call options of `set` (src/index.js:246-251): destructured with
defaults `priority = 0`, `tags = []`. -/
structure SetOptions where
  ttl : Option Int := none
  priority : Int := 0
  tags : List String := []

/-- `delete(key)` (src/index.js:363-382): remove the entry from `store`,
`meta`, `ttlMap`, `priorityMap`; then detach the key from every tag it
carries, dropping a tag whose key set becomes empty; returns whether the
key existed in the store. -/
def delete (key : K) (st : CacheState K V) : Bool × CacheState K V :=
  let existed := hasKey st.store key
  let st1 : CacheState K V :=
    { st with
      store := jdel st.store key
      meta := jdel st.meta key
      ttlMap := jdel st.ttlMap key
      priorityMap := jdel st.priorityMap key }
  let st2 : CacheState K V :=
    match get? st1.keyTags key with
    | none => st1
    | some ts =>
      let tm := ts.foldl
        (fun tm tag =>
          match get? tm tag with
          | none => tm
          | some ks =>
            let ks1 := ks.erase key
            if ks1.length = 0 then jdel tm tag else jset tm tag ks1)
        st1.tagMap
      { st1 with tagMap := tm, keyTags := jdel st1.keyTags key }
  (existed, st2)

/-- Effective priority used by the eviction comparator:
`this.priorityMap.get(key) || 0` (src/index.js:1006-1007). -/
def prioOf (st : CacheState K V) (k : K) : Int :=
  (get? st.priorityMap k).getD 0

/-- Effective timestamp used by the eviction comparator:
`this.meta.get(key) || 0` (src/index.js:1011-1012). -/
def timeOf (st : CacheState K V) (k : K) : Nat :=
  (get? st.meta k).getD 0

/-- Equal-priority tie-break of the eviction comparator
(src/index.js:1013-1016): oldest first for LRU and FIFO, newest first
for MFU, no preference otherwise. -/
def timeCmpLT (strat : Strategy) (aT bT : Nat) : Bool :=
  match strat with
  | Strategy.LRU => decide (aT < bT)
  | Strategy.MFU => decide (bT < aT)
  | Strategy.FIFO => decide (aT < bT)
  | Strategy.CUSTOM => false

/-- Whether the comparator of src/index.js:1005-1017 returns a negative
number on `(a, b)`, i.e. `a` strictly precedes `b` in the eviction sort:
ascending priority first, recency rule only between equal priorities. -/
def evictLT (strat : Strategy) (st : CacheState K V) (a b : K) : Bool :=
  let aP := prioOf st a
  let bP := prioOf st b
  if aP ≠ bP then decide (aP < bP)
  else timeCmpLT strat (timeOf st a) (timeOf st b)

/-- Left-most minimum of `b :: l` with respect to a strict comparator.
JS `Array.prototype.sort` is stable and the comparator is a strict weak
order induced by a lexicographic sort key, so `entries.sort(cmp)[0]`
(src/index.js:1019) is exactly the left-most minimal element. -/
def leftmostMin (lt : K → K → Bool) : K → List K → K
  | b, [] => b
  | b, k :: t => leftmostMin lt (if lt k b then k else b) t

/-- The eviction victim chosen by the ranking path of `evict`
(src/index.js:1002-1019): `none` iff the store is empty. -/
def victimOf (cfg : Config K V) (st : CacheState K V) : Option K :=
  match st.store with
  | [] => none
  | e :: rest => some (leftmostMin (evictLT cfg.strategy st) e.1 (rest.map Prod.fst))

/-- `evict()` (src/index.js:996-1022): if a `customEvict` function is
present it receives `store` and `meta` and fully decides the outcome
(no ranking, no `evictions` increment); otherwise the comparator ranks
all entries, the first is deleted and `evictions` is incremented. -/
def evict (cfg : Config K V) (st : CacheState K V) : CacheState K V :=
  match cfg.customEvict with
  | some f =>
    let p := f st.store st.meta
    { st with store := p.1, meta := p.2 }
  | none =>
    match victimOf cfg st with
    | none => st
    | some v =>
      let st1 := (delete v st).2
      { st1 with evictions := st1.evictions + 1 }

/-- `ttl || this.ttl` (src/index.js:259): the per-call TTL if truthy,
else the cache-wide default. -/
def defaultTTLOf (cfg : Config K V) (o : SetOptions) : Option Int :=
  match o.ttl with
  | some t => if t = 0 then cfg.ttl else some t
  | none => cfg.ttl

/-- The TTL step of `set` (src/index.js:270-274): a numeric positive
effective TTL stores the absolute deadline `now + ttl`, anything else
clears any prior deadline of the key. -/
def ttlWrite (cfg : Config K V) (o : SetOptions) (now : Nat) (key : K)
    (m : JMap K Int) : JMap K Int :=
  match defaultTTLOf cfg o with
  | some t => if 0 < t then jset m key ((now : Int) + t) else jdel m key
  | none => jdel m key

/-- The tag step of `set` (src/index.js:278-281): for each tag of the new
tag set, create its key set if missing and add the key to it. -/
def tagFold (key : K) (tagSet : List String) (tm : JMap String (List K)) :
    JMap String (List K) :=
  tagSet.foldl
    (fun tm tag =>
      match get? tm tag with
      | none => jset tm tag [key]
      | some ks => jset tm tag (sadd ks key))
    tm

/-- `set(key, value, options)` (src/index.js:246-285).  Order is exactly
the source order: the priority is recorded first, then the overwrite
guard may return early, then capacity pressure runs `evict` once, then
`store`/`meta` are written, the TTL deadline is set (positive TTL) or
cleared, and finally `keyTags` is replaced with the new tag set and each
tag's reverse key set gains the key. -/
def set (cfg : Config K V) (now : Nat) (key : K) (value : V) (o : SetOptions)
    (st : CacheState K V) : CacheState K V :=
  let st1 : CacheState K V := { st with priorityMap := jset st.priorityMap key o.priority }
  if !cfg.overWrite && hasKey st1.store key then st1
  else
    let st2 := if cfg.limit ≤ st1.store.length && !hasKey st1.store key then evict cfg st1 else st1
    let st3 : CacheState K V :=
      { st2 with store := jset st2.store key value, meta := jset st2.meta key now }
    let st4 : CacheState K V := { st3 with ttlMap := ttlWrite cfg o now key st3.ttlMap }
    let tagSet := setFromList o.tags
    let st5 : CacheState K V := { st4 with keyTags := jset st4.keyTags key tagSet }
    { st5 with tagMap := tagFold key tagSet st5.tagMap }

/-- `get(key)` (src/index.js:294-318): miss on an absent key; a truthy
deadline strictly in the past lazily deletes the entry and counts a
miss; otherwise optionally refresh recency, count a hit and return the
stored value. -/
def get (cfg : Config K V) (now : Nat) (key : K) (st : CacheState K V) :
    Option V × CacheState K V :=
  if !hasKey st.store key then
    (none, { st with misses := st.misses + 1 })
  else
    let ttl := get? st.ttlMap key
    if !jsFalsyInt ttl && decide ((ttl.getD 0) < (now : Int)) then
      let st1 := (delete key st).2
      (none, { st1 with misses := st1.misses + 1 })
    else
      let st1 := if cfg.updateOnGet then { st with meta := jset st.meta key now } else st
      (get? st1.store key, { st1 with hits := st1.hits + 1 })

/-- The successful middle of `rename` (src/index.js:413-427): capture
the old key's recency, deadline and tag set, re-insert the value via
`set(newKey, value)` (which records the default priority `0` for
`newKey`, applies the cache-wide default TTL if any, and writes an
empty tag set), then patch recency and deadline back when truthy
(`if (meta)` / `if (ttl)`), replace `newKey`'s tag set with a copy of
the old one, and move each existing reverse mapping from `oldKey` to
`newKey`. -/
def renameMid (cfg : Config K V) (now : Nat) (oldKey newKey : K) (value : V)
    (st : CacheState K V) : CacheState K V :=
  let metaOld := get? st.meta oldKey
  let ttlOld := get? st.ttlMap oldKey
  let tagsOld := get? st.keyTags oldKey
  let st1 := set cfg now newKey value {} st
  let st2 :=
    match metaOld with
    | some m => if m ≠ 0 then { st1 with meta := jset st1.meta newKey m } else st1
    | none => st1
  let st3 :=
    match ttlOld with
    | some d => if d ≠ 0 then { st2 with ttlMap := jset st2.ttlMap newKey d } else st2
    | none => st2
  match tagsOld with
  | some ts =>
    let sta : CacheState K V := { st3 with keyTags := jset st3.keyTags newKey (setFromList ts) }
    { sta with
      tagMap := ts.foldl
        (fun tm tag =>
          match get? tm tag with
          | none => tm
          | some ks => jset tm tag ((sadd ks newKey).erase oldKey))
        sta.tagMap }
  | none => st3

/-- `rename(oldKey, newKey)` (src/index.js:410-431): no-op returning
`false` if `oldKey` is absent or `newKey` present; otherwise run the
re-insertion (`renameMid`), then `delete(oldKey)` and return `true`. -/
def rename (cfg : Config K V) (now : Nat) (oldKey newKey : K)
    (st : CacheState K V) : Bool × CacheState K V :=
  if !hasKey st.store oldKey || hasKey st.store newKey then (false, st)
  else
    match get? st.store oldKey with
    | none => (false, st)
    | some value => (true, (delete oldKey (renameMid cfg now oldKey newKey value st)).2)

/-- `flush()` (src/index.js:440-449): clear every map; the hit, miss and
eviction counters are untouched. -/
def flush (st : CacheState K V) : CacheState K V :=
  { st with store := [], meta := [], ttlMap := [], tagMap := [], keyTags := [], priorityMap := [] }

/-- `ttlExpire(key)` (src/index.js:459-465): `-1` when the key is absent
from the store or its deadline is falsy (absent or `0`); otherwise the
positive remaining time when the deadline is strictly in the future and
`-1` at or past the deadline. -/
def ttlExpire (now : Nat) (key : K) (st : CacheState K V) : Int :=
  let expireAt := get? st.ttlMap key
  if !hasKey st.store key || jsFalsyInt expireAt then -1
  else
    match expireAt with
    | some e => if (now : Int) < e then e - now else -1
    | none => -1

/-- The serializable snapshot produced by `snapshot()`
(src/index.js:926-939).  It has exactly the fields `data`, `meta`,
`ttlMap`, `tagMap`, `keyTags` and the three counters; in particular
there is no field for the priority map. -/
structure Snapshot (K V : Type) where
  data : List (K × V)
  meta : List (K × Nat)
  ttlMap : List (K × Int)
  tagMap : List (String × List K)
  keyTags : List (K × List String)
  hits : Nat
  misses : Nat
  evictions : Nat
deriving DecidableEq

/-- `snapshot()` (src/index.js:926-939): every map is spread into a list
of pairs in iteration order; each tag's key set and each key's tag set
is spread into a list. -/
def snapshot (st : CacheState K V) : Snapshot K V :=
  ⟨st.store, st.meta, st.ttlMap, st.tagMap, st.keyTags, st.hits, st.misses, st.evictions⟩

/-- Shape of one collection of an untrusted snapshot argument: absent
(`snapshot.x || []` yields `[]`), present but not iterable (the
`for...of` loop throws), or an iterable list of pairs. -/
inductive SnapField (α : Type) where
  | missing
  | notIterable
  | ok (l : List α)
deriving DecidableEq

/-- The list a `for...of` over `field || []` would consume, or `none`
when the loop throws. -/
def SnapField.toList? : SnapField α → Option (List α)
  | SnapField.missing => some []
  | SnapField.notIterable => none
  | SnapField.ok l => some l

/-- An untrusted snapshot object: the five collections and the optional
`stats` record (`snapshot.stats || {}` with destructuring defaults 0). -/
structure RawSnapshot (K V : Type) where
  data : SnapField (K × V)
  meta : SnapField (K × Nat)
  ttlMap : SnapField (K × Int)
  tagMap : SnapField (String × List K)
  keyTags : SnapField (K × List String)
  stats : Option (Nat × Nat × Nat)
deriving DecidableEq

/-- An untrusted `loadSnapshot` argument: either not an object (the only
shape rejected before any mutation) or an object of collections. -/
inductive RawSnap (K V : Type) where
  | notObject
  | obj (s : RawSnapshot K V)
deriving DecidableEq

/-- `loadSnapshot(snapshot)` (src/index.js:950-968).  A non-object
argument throws before any mutation.  Otherwise `flush()` clears the
maps first, and each collection is then replayed with `Map.set`
(`new Set(...)` for the tag lists); a non-iterable collection throws at
that point, with every earlier collection already restored.  The result
of `Except.error` carries the state at throw time. -/
def loadSnapshot (st : CacheState K V) (raw : RawSnap K V) :
    Except (CacheState K V) (CacheState K V) :=
  match raw with
  | RawSnap.notObject => Except.error st
  | RawSnap.obj s =>
    let st1 := flush st
    match s.data.toList? with
    | none => Except.error st1
    | some ds =>
      let st2 : CacheState K V :=
        { st1 with store := ds.foldl (fun m p => jset m p.1 p.2) st1.store }
      match s.meta.toList? with
      | none => Except.error st2
      | some ms =>
        let st3 : CacheState K V :=
          { st2 with meta := ms.foldl (fun m p => jset m p.1 p.2) st2.meta }
        match s.ttlMap.toList? with
        | none => Except.error st3
        | some tls =>
          let st4 : CacheState K V :=
            { st3 with ttlMap := tls.foldl (fun m p => jset m p.1 p.2) st3.ttlMap }
          match s.tagMap.toList? with
          | none => Except.error st4
          | some tms =>
            let st5 : CacheState K V :=
              { st4 with tagMap := tms.foldl (fun m p => jset m p.1 (setFromList p.2)) st4.tagMap }
            match s.keyTags.toList? with
            | none => Except.error st5
            | some kts =>
              let st6 : CacheState K V :=
                { st5 with keyTags := kts.foldl (fun m p => jset m p.1 (setFromList p.2)) st5.keyTags }
              let stats := s.stats.getD (0, 0, 0)
              Except.ok { st6 with hits := stats.1, misses := stats.2.1, evictions := stats.2.2 }

/-- Lift a well-formed `snapshot()` result to a `loadSnapshot` argument:
every collection is present and iterable, as produced by
src/index.js:926-939. -/
def toRaw (s : Snapshot K V) : RawSnap K V :=
  RawSnap.obj
    ⟨SnapField.ok s.data, SnapField.ok s.meta, SnapField.ok s.ttlMap,
      SnapField.ok s.tagMap, SnapField.ok s.keyTags,
      some (s.hits, s.misses, s.evictions)⟩

/-- `clone()` (src/index.js:854-862): `loadSnapshot` of a deep copy of
`snapshot()` into a freshly constructed sibling (the JSON round trip is
the identity on our pure data). -/
def clone (st : CacheState K V) : CacheState K V :=
  match loadSnapshot (initState : CacheState K V) (toRaw (snapshot st)) with
  | Except.ok r => r
  | Except.error r => r

/-- The bidirectional tag-index consistency invariant, decided over the
finite state: every key listed under a tag carries that tag, every tag
carried by a key lists that key, and no tag maps to an empty key set. -/
def tagIndexConsistentB (st : CacheState K V) : Bool :=
  st.tagMap.all
    (fun p =>
      decide (p.2 ≠ []) &&
      p.2.all (fun k =>
        match get? st.keyTags k with
        | some ts => decide (p.1 ∈ ts)
        | none => false)) &&
  st.keyTags.all
    (fun p =>
      p.2.all (fun tag =>
        match get? st.tagMap tag with
        | some ks => decide (p.1 ∈ ks)
        | none => false))

/-- Well-formedness of a state as maintained by real `Map`s and `Set`s:
no map holds a duplicate key and no set holds a duplicate element. -/
def WF (st : CacheState K V) : Prop :=
  (keyList st.store).Nodup ∧ (keyList st.meta).Nodup ∧ (keyList st.ttlMap).Nodup ∧
  (keyList st.tagMap).Nodup ∧ (keyList st.keyTags).Nodup ∧
  (∀ p ∈ st.tagMap, p.2.Nodup) ∧ (∀ p ∈ st.keyTags, p.2.Nodup)

instance (st : CacheState K V) : Decidable (WF st) := by
  unfold WF
  infer_instance

/-- The time component of the eviction sort key, oriented so that the
comparator always prefers the smaller value: recorded time for LRU and
FIFO, negated recorded time for MFU, constant otherwise. -/
def adjTime (strat : Strategy) (st : CacheState K V) (k : K) : Int :=
  match strat with
  | Strategy.LRU => (timeOf st k : Int)
  | Strategy.FIFO => (timeOf st k : Int)
  | Strategy.MFU => -(timeOf st k : Int)
  | Strategy.CUSTOM => 0

/-- The lexicographic sort key realised by the comparator of
src/index.js:1005-1017: ascending priority, then the strategy's time
orientation. -/
def rankOf (strat : Strategy) (st : CacheState K V) (k : K) : Int ×ₗ Int :=
  toLex (prioOf st k, adjTime strat st k)

/-! Concrete instances (`K = Nat`, `V = Int`) used to evaluate the
embedded operations on explicit inputs. -/

/-- A cache with all constructor defaults (`limit` 100, LRU, overwrite
enabled, no default TTL, no custom evictor). -/
def cfgD : Config Nat Int := { limit := 100 }

/-- `set("0", 10, {tags:["a"]})` on a fresh default cache. -/
def stT1 : CacheState Nat Int := set cfgD 1 0 10 { tags := ["a"] } initState

/-- ... then `set("0", 11, {tags:["b"]})`: the same key overwritten with
a different tag list. -/
def stT2 : CacheState Nat Int := set cfgD 2 0 11 { tags := ["b"] } stT1

/-- A default cache with overwriting disabled. -/
def cfgNoOW : Config Nat Int := { limit := 100, overWrite := false }

/-- `set("0", 10, {priority:5})` on a fresh overwrite-disabled cache. -/
def stc1 : CacheState Nat Int := set cfgNoOW 1 0 10 { priority := 5 } initState

/-- ... then `set("0", 20)` on the existing key: blocked by the
overwrite guard, but only after the priority write. -/
def stc2 : CacheState Nat Int := set cfgNoOW 2 0 20 {} stc1

/-- A capacity-1 cache with a CUSTOM strategy whose custom evictor
removes nothing (a legal caller-supplied function). -/
def cfg4 : Config Nat Int :=
  { limit := 1, strategy := Strategy.CUSTOM, customEvict := some (fun s m => (s, m)) }

/-- One entry: the cache is at capacity. -/
def st4a : CacheState Nat Int := set cfg4 1 0 10 {} initState

/-- A second, fresh key: `set` invokes the eviction dispatcher, which
delegates to the do-nothing custom evictor. -/
def st4b : CacheState Nat Int := set cfg4 2 1 11 {} st4a

/-- A capacity-2 LRU cache. -/
def cfg5 : Config Nat Int := { limit := 2 }

/-- Two entries at capacity: key 0 is the most recently used (time 5
against 1) but has the strictly lowest priority (1 against 2). -/
def st5 : CacheState Nat Int :=
  ⟨0, 0, 0, [(0, 10), (1, 11)], [(0, 5), (1, 1)], [], [(0, 1), (1, 2)], [], []⟩

/-- An LRU cache that nevertheless carries a custom evictor which clears
the whole store. -/
def cfgF : Config Nat Int :=
  { limit := 1, strategy := Strategy.LRU, customEvict := some (fun _ m => ([], m)) }

/-- One entry with value, recency, deadline, priority 7 and tag "a". -/
def st6 : CacheState Nat Int :=
  set cfgD 1 0 10 { ttl := some 50, tags := ["a"], priority := 7 } initState

/-- A populated state with counters, a deadline, a priority and tags. -/
def st7 : CacheState Nat Int :=
  ⟨3, 1, 2, [(0, 10), (1, 20)], [(0, 5), (1, 6)], [(0, 100)], [(0, 7)],
    [("a", [0, 1])], [(0, ["a"]), (1, ["a"])]⟩

/-- A single live entry whose deadline is the instant `5`. -/
def st8 : CacheState Nat Int :=
  ⟨0, 0, 0, [(0, 1)], [], [(0, 5)], [], [], []⟩

/-- A nonempty state with nonzero counters, to restore snapshots into. -/
def st2c : CacheState Nat Int :=
  ⟨1, 2, 3, [(0, 5)], [(0, 1)], [], [], [], []⟩

/-! Basic facts about the `Map` and `Set` embedding. -/

theorem get?_jset_self (m : JMap K V) (k : K) (v : V) :
    get? (jset m k v) k = some v := by
  induction m with
  | nil => simp [jset, get?]
  | cons p t ih =>
    obtain ⟨k', v'⟩ := p
    by_cases h : k = k' <;> simp [jset, get?, h, ih]

theorem get?_jset_ne (m : JMap K V) {k k' : K} (v : V) (h : k' ≠ k) :
    get? (jset m k v) k' = get? m k' := by
  induction m with
  | nil => simp [jset, get?, h]
  | cons p t ih =>
    obtain ⟨a, b⟩ := p
    by_cases hk : k = a
    · subst hk
      simp [jset, get?, h]
    · by_cases hk' : k' = a <;> simp [jset, get?, hk, hk', ih]

theorem get?_jdel_ne (m : JMap K V) {k k' : K} (h : k' ≠ k) :
    get? (jdel m k) k' = get? m k' := by
  induction m with
  | nil => simp [jdel]
  | cons p t ih =>
    obtain ⟨a, b⟩ := p
    by_cases hk : k = a
    · subst hk
      simp [jdel, get?, h]
    · by_cases hk' : k' = a <;> simp [jdel, get?, hk, hk', ih]

theorem keyList_cons (a : K) (b : V) (t : JMap K V) :
    keyList ((a, b) :: t) = a :: keyList t := rfl

theorem hasKey_iff_mem (m : JMap K V) (k : K) :
    hasKey m k = true ↔ k ∈ keyList m := by
  induction m with
  | nil => simp [hasKey, get?, keyList]
  | cons p t ih =>
    obtain ⟨a, b⟩ := p
    rw [keyList_cons, List.mem_cons]
    by_cases h : k = a
    · subst h
      simp [hasKey, get?]
    · rw [show hasKey ((a, b) :: t) k = hasKey t k from by simp [hasKey, get?, h], ih]
      simp [h]

theorem get?_eq_none_iff (m : JMap K V) (k : K) :
    get? m k = none ↔ k ∉ keyList m := by
  rw [← hasKey_iff_mem]
  constructor
  · intro h hk
    rw [hasKey, h] at hk
    exact Bool.noConfusion hk
  · intro h
    cases hg : get? m k with
    | none => rfl
    | some v => exact absurd (by simp [hasKey, hg]) h

theorem get?_jdel_self (m : JMap K V) (k : K) (h : (keyList m).Nodup) :
    get? (jdel m k) k = none := by
  induction m with
  | nil => simp [jdel, get?]
  | cons p t ih =>
    obtain ⟨a, b⟩ := p
    simp only [keyList, List.map_cons, List.nodup_cons] at h
    by_cases hk : k = a
    · subst hk
      simp only [jdel, if_pos rfl]
      exact (get?_eq_none_iff t _).mpr h.1
    · simp [jdel, get?, hk, ih h.2]

theorem jdel_length (m : JMap K V) (k : K) (h : hasKey m k = true) :
    (jdel m k).length + 1 = m.length := by
  induction m with
  | nil => simp [hasKey, get?] at h
  | cons p t ih =>
    obtain ⟨a, b⟩ := p
    by_cases hk : k = a
    · simp [jdel, hk]
    · simp only [hasKey, get?, if_neg hk] at h
      simp [jdel, hk, ih h]

theorem jset_of_get?_none (m : JMap K V) (k : K) (v : V) (h : get? m k = none) :
    jset m k v = m ++ [(k, v)] := by
  induction m with
  | nil => rfl
  | cons p t ih =>
    obtain ⟨a, b⟩ := p
    by_cases hk : k = a
    · simp [get?, hk] at h
    · simp only [get?, if_neg hk] at h
      simp [jset, hk, ih h]

theorem get?_append_none (m1 m2 : JMap K V) (k : K) (h : get? m1 k = none) :
    get? (m1 ++ m2) k = get? m2 k := by
  induction m1 with
  | nil => rfl
  | cons p t ih =>
    obtain ⟨a, b⟩ := p
    by_cases hk : k = a
    · simp [get?, hk] at h
    · simp only [get?, if_neg hk] at h
      simp [get?, hk, ih h]

theorem sadd_of_not_mem {s : List K} {k : K} (h : k ∉ s) :
    sadd s k = s ++ [k] := by
  simp [sadd, h]

theorem foldl_sadd_append (l : List K) :
    ∀ acc : List K, (∀ x ∈ l, x ∉ acc) → l.Nodup →
      l.foldl sadd acc = acc ++ l := by
  induction l with
  | nil => intro acc _ _; simp
  | cons x t ih =>
    intro acc hfresh hnd
    rw [List.nodup_cons] at hnd
    rw [List.foldl_cons, sadd_of_not_mem (hfresh x (List.mem_cons_self x t)),
      ih (acc ++ [x]) ?_ hnd.2, List.append_assoc]
    · rfl
    · intro y hy
      simp only [List.mem_append, List.mem_singleton]
      rintro (hc | rfl)
      · exact hfresh y (List.mem_cons_of_mem x hy) hc
      · exact hnd.1 hy

theorem setFromList_eq_self {l : List K} (h : l.Nodup) : setFromList l = l := by
  simpa using foldl_sadd_append l [] (by simp) h

/-! Replaying a duplicate-free list of pairs with `Map.set` onto fresh
ground rebuilds it unchanged — the heart of the snapshot round trip. -/

theorem foldl_jset_append (l : List (K × V)) :
    ∀ acc : JMap K V, (∀ p ∈ l, get? acc p.1 = none) → (keyList l).Nodup →
      l.foldl (fun m p => jset m p.1 p.2) acc = acc ++ l := by
  induction l with
  | nil => intro acc _ _; simp
  | cons p t ih =>
    intro acc hfresh hnd
    simp only [keyList, List.map_cons, List.nodup_cons] at hnd
    rw [List.foldl_cons, jset_of_get?_none acc p.1 p.2 (hfresh p (List.mem_cons_self p t))]
    rw [ih (acc ++ [(p.1, p.2)]) ?_ hnd.2, List.append_assoc]
    · rfl
    · intro q hq
      rw [get?_append_none _ _ _ (hfresh q (List.mem_cons_of_mem p hq))]
      have hqp : q.1 ≠ p.1 := by
        intro he
        exact hnd.1 (he ▸ List.mem_map_of_mem Prod.fst hq)
      simp [get?, hqp]

theorem foldl_jset_setFromList_append [DecidableEq A] (l : List (K × List A)) :
    ∀ acc : JMap K (List A), (∀ p ∈ l, get? acc p.1 = none) → (keyList l).Nodup →
      (∀ p ∈ l, (setFromList p.2 : List A) = p.2) →
      l.foldl (fun m p => jset m p.1 (setFromList p.2)) acc = acc ++ l := by
  induction l with
  | nil => intro acc _ _ _; simp
  | cons p t ih =>
    intro acc hfresh hnd hsets
    simp only [keyList, List.map_cons, List.nodup_cons] at hnd
    rw [List.foldl_cons, hsets p (List.mem_cons_self p t),
      jset_of_get?_none acc p.1 p.2 (hfresh p (List.mem_cons_self p t))]
    rw [ih (acc ++ [(p.1, p.2)]) ?_ hnd.2 ?_, List.append_assoc]
    · rfl
    · intro q hq
      rw [get?_append_none _ _ _ (hfresh q (List.mem_cons_of_mem p hq))]
      have hqp : q.1 ≠ p.1 := by
        intro he
        exact hnd.1 (he ▸ List.mem_map_of_mem Prod.fst hq)
      simp [get?, hqp]
    · exact fun q hq => hsets q (List.mem_cons_of_mem p hq)

/-! The ranking used by `evict`: the left-most minimum of the stable
sort is characterised through the lexicographic sort key `rankOf`. -/

theorem leftmostMin_mem (lt : K → K → Bool) (l : List K) :
    ∀ b : K, leftmostMin lt b l = b ∨ leftmostMin lt b l ∈ l := by
  induction l with
  | nil => intro b; left; rfl
  | cons k t ih =>
    intro b
    rw [leftmostMin]
    by_cases h : lt k b
    · rw [if_pos h]
      rcases ih k with he | hm
      · right; rw [he]; exact List.mem_cons_self k t
      · right; exact List.mem_cons_of_mem k hm
    · rw [if_neg h]
      rcases ih b with he | hm
      · left; exact he
      · right; exact List.mem_cons_of_mem k hm

theorem leftmostMin_le {α : Type} [LinearOrder α] (f : K → α) (l : List K) :
    ∀ b x : K, x = b ∨ x ∈ l →
      f (leftmostMin (fun a c => decide (f a < f c)) b l) ≤ f x := by
  induction l with
  | nil =>
    intro b x hx
    rcases hx with rfl | hm
    · exact le_refl _
    · cases hm
  | cons k t ih =>
    intro b x hx
    rw [leftmostMin]
    have hb1 : f (if decide (f k < f b) = true then k else b) ≤ f b ∧
        f (if decide (f k < f b) = true then k else b) ≤ f k := by
      by_cases h : f k < f b
      · simp only [decide_eq_true_eq, if_pos h]
        exact ⟨le_of_lt h, le_refl _⟩
      · simp only [decide_eq_true_eq, if_neg h]
        exact ⟨le_refl _, le_of_not_lt h⟩
    have hrec : f (leftmostMin (fun a c => decide (f a < f c))
        (if decide (f k < f b) = true then k else b) t) ≤
        f (if decide (f k < f b) = true then k else b) :=
      ih _ _ (Or.inl rfl)
    rcases hx with rfl | hm
    · exact le_trans hrec hb1.1
    · rcases List.mem_cons.mp hm with rfl | hm2
      · exact le_trans hrec hb1.2
      · exact ih _ _ (Or.inr hm2)

theorem evictLT_eq_rank (strat : Strategy) (st : CacheState K V) (a b : K) :
    evictLT strat st a b = decide (rankOf strat st a < rankOf strat st b) := by
  simp only [evictLT, rankOf]
  by_cases hp : prioOf st a = prioOf st b
  · rw [if_neg (by simpa using hp)]
    cases strat <;>
      simp [timeCmpLT, adjTime, Prod.Lex.lt_iff, hp, Nat.cast_lt, neg_lt_neg_iff]
  · rw [if_pos (by simpa using hp)]
    simp [Prod.Lex.lt_iff, hp]

theorem rank_le_iff (strat : Strategy) (st : CacheState K V) (a b : K) :
    rankOf strat st a ≤ rankOf strat st b ↔
      (prioOf st a < prioOf st b ∨
        (prioOf st a = prioOf st b ∧ adjTime strat st a ≤ adjTime strat st b)) :=
  Prod.Lex.le_iff (prioOf st a, adjTime strat st a) (prioOf st b, adjTime strat st b)

/-! Field-level descriptions of `delete`, `set` and `evict`. -/

theorem delete_fst (key : K) (st : CacheState K V) :
    (delete key st).1 = hasKey st.store key := by
  cases h : get? st.keyTags key <;> simp [delete, h]

theorem delete_snd_store (key : K) (st : CacheState K V) :
    ((delete key st).2).store = jdel st.store key := by
  cases h : get? st.keyTags key <;> simp [delete, h]

theorem delete_snd_meta (key : K) (st : CacheState K V) :
    ((delete key st).2).meta = jdel st.meta key := by
  cases h : get? st.keyTags key <;> simp [delete, h]

theorem delete_snd_ttlMap (key : K) (st : CacheState K V) :
    ((delete key st).2).ttlMap = jdel st.ttlMap key := by
  cases h : get? st.keyTags key <;> simp [delete, h]

theorem delete_snd_priorityMap (key : K) (st : CacheState K V) :
    ((delete key st).2).priorityMap = jdel st.priorityMap key := by
  cases h : get? st.keyTags key <;> simp [delete, h]

theorem delete_snd_evictions (key : K) (st : CacheState K V) :
    ((delete key st).2).evictions = st.evictions := by
  cases h : get? st.keyTags key <;> simp [delete, h]

theorem delete_snd_hits (key : K) (st : CacheState K V) :
    ((delete key st).2).hits = st.hits := by
  cases h : get? st.keyTags key <;> simp [delete, h]

theorem delete_snd_misses (key : K) (st : CacheState K V) :
    ((delete key st).2).misses = st.misses := by
  cases h : get? st.keyTags key <;> simp [delete, h]

theorem get?_delete_keyTags_ne (key k' : K) (st : CacheState K V) (h : k' ≠ key) :
    get? ((delete key st).2).keyTags k' = get? st.keyTags k' := by
  cases hkt : get? st.keyTags key <;> simp [delete, hkt, get?_jdel_ne _ h]

/-- The effect of `set` whenever neither the overwrite guard nor
capacity pressure intervenes: one record update per touched map, in
source order (src/index.js:246-285). -/
theorem set_eq (cfg : Config K V) (now : Nat) (key : K) (v : V) (o : SetOptions)
    (st : CacheState K V)
    (hov : cfg.overWrite = true ∨ hasKey st.store key = false)
    (hcap : st.store.length < cfg.limit ∨ hasKey st.store key = true) :
    set cfg now key v o st =
      { st with
        priorityMap := jset st.priorityMap key o.priority
        store := jset st.store key v
        meta := jset st.meta key now
        ttlMap := ttlWrite cfg o now key st.ttlMap
        keyTags := jset st.keyTags key (setFromList o.tags)
        tagMap := tagFold key (setFromList o.tags) st.tagMap } := by
  have hguard : (!cfg.overWrite && hasKey st.store key) = false := by
    rcases hov with h | h <;> simp [h]
  have hevict : (cfg.limit ≤ st.store.length && !hasKey st.store key) = false := by
    rcases hcap with h | h
    · simp [Nat.not_le.mpr h]
    · simp [h]
  simp [set, hguard, hevict]

theorem evict_custom (cfg : Config K V) (st : CacheState K V)
    (f : JMap K V → JMap K Nat → JMap K V × JMap K Nat)
    (h : cfg.customEvict = some f) :
    evict cfg st = { st with store := (f st.store st.meta).1, meta := (f st.store st.meta).2 } := by
  simp [evict, h]

theorem evict_ranked (cfg : Config K V) (st : CacheState K V) (v : K)
    (h1 : cfg.customEvict = none) (hv : victimOf cfg st = some v) :
    evict cfg st = { (delete v st).2 with evictions := ((delete v st).2).evictions + 1 } := by
  simp [evict, h1, hv]

theorem victimOf_mem (cfg : Config K V) (st : CacheState K V) (v : K)
    (hv : victimOf cfg st = some v) : v ∈ keyList st.store := by
  cases hs : st.store with
  | nil => rw [victimOf, hs] at hv; cases hv
  | cons e rest =>
    rw [victimOf, hs] at hv
    have hv2 : leftmostMin (evictLT cfg.strategy st) e.1 (rest.map Prod.fst) = v :=
      Option.some.inj hv
    rcases leftmostMin_mem (evictLT cfg.strategy st) (rest.map Prod.fst) e.1 with he | hm
    · rw [hv2] at he
      simp only [keyList, List.map_cons, List.mem_cons]
      exact Or.inl he
    · rw [hv2] at hm
      simp only [keyList, List.map_cons, List.mem_cons]
      exact Or.inr hm

theorem victimOf_min (cfg : Config K V) (st : CacheState K V) (v : K)
    (hv : victimOf cfg st = some v) :
    ∀ k ∈ keyList st.store, rankOf cfg.strategy st v ≤ rankOf cfg.strategy st k := by
  cases hs : st.store with
  | nil => rw [victimOf, hs] at hv; cases hv
  | cons e rest =>
    rw [victimOf, hs] at hv
    have hfun : evictLT cfg.strategy st =
        fun a c => decide (rankOf cfg.strategy st a < rankOf cfg.strategy st c) :=
      funext fun a => funext fun c => evictLT_eq_rank cfg.strategy st a c
    rw [hfun] at hv
    have hv2 := Option.some.inj hv
    intro k hk
    simp only [keyList, List.map_cons, List.mem_cons] at hk
    rw [← hv2]
    exact leftmostMin_le (rankOf cfg.strategy st) (rest.map Prod.fst) e.1 k hk

/-! Claim analyses. -/

/-- C1.  The bidirectional tag-index invariant does NOT survive a `set`
that overwrites an existing key with a different tag list: after
`set(0, 10, {tags:["a"]})` then `set(0, 11, {tags:["b"]})` on a fresh
default cache, key `0` is still a member of `tagMap["a"]`
(src/index.js:278-281 only ever adds to the reverse index) while
`keyTags[0]` has been replaced by `{"b"}` (src/index.js:277), so the
state violates `key ∈ tagIndex[tag] ⇔ tag ∈ keyIndex[key]`.  The code
elsewhere carefully maintains the invariant (`delete`, with empty-set
cleanup, src/index.js:369-377), so the overwrite path is a slip of the
code against the documented invariant. -/
theorem C1_tag_index_breaks_on_overwrite :
    get? stT2.tagMap "a" = some [0] ∧ get? stT2.keyTags 0 = some ["b"] ∧
      tagIndexConsistentB stT2 = false :=
  ⟨rfl, rfl, rfl⟩

/-- C2 counterexample.  A snapshot that IS an object but whose `data`
collection is not iterable makes `loadSnapshot` throw only AFTER
`this.flush()` (src/index.js:953) has erased the maps: the operation
fails with an error, yet the cache state is not left unchanged — it has
been flushed. -/
theorem C2_counterexample_flush_before_validation :
    loadSnapshot st2c
        (RawSnap.obj
          ⟨SnapField.notIterable, SnapField.missing, SnapField.missing,
            SnapField.missing, SnapField.missing, none⟩) =
      Except.error (flush st2c)
      ∧ flush st2c ≠ st2c :=
  ⟨rfl, by decide⟩

/-- C2 amended.  Only the top-level check `typeof snapshot !== "object"`
(src/index.js:951) runs before any mutation: a non-object snapshot
fails with the state fully unchanged.  Missing collections do not fail
at all — `snapshot.x || []` treats them as empty and the restore
succeeds.  A collection that is present but not iterable raises an
error only after the cache has already been flushed (and any earlier
collections restored), so the prior state is lost. -/
theorem C2_loadSnapshot_validation_behaviour (st : CacheState K V) :
    loadSnapshot st (RawSnap.notObject : RawSnap K V) = Except.error st
    ∧ (∀ (fm : SnapField (K × Nat)) (ft : SnapField (K × Int))
        (ftm : SnapField (String × List K)) (fkt : SnapField (K × List String))
        (stats : Option (Nat × Nat × Nat)),
        loadSnapshot st (RawSnap.obj ⟨SnapField.notIterable, fm, ft, ftm, fkt, stats⟩) =
          Except.error (flush st))
    ∧ loadSnapshot st
        (RawSnap.obj
          ⟨SnapField.missing, SnapField.missing, SnapField.missing,
            SnapField.missing, SnapField.missing, none⟩) =
      Except.ok { flush st with hits := 0, misses := 0, evictions := 0 } :=
  ⟨rfl, fun _ _ _ _ _ => rfl, rfl⟩

/-- C3 counterexample.  With overwriting disabled, `set` on an existing
key is NOT a pure no-op: `this.priorityMap.set(key, priority)`
(src/index.js:255-257) executes before the overwrite guard
(src/index.js:261), so the key's stored priority changes from 5 to the
default 0 and the resulting state differs from the prior state. -/
theorem C3_counterexample_priority_updated :
    get? stc1.priorityMap 0 = some 5 ∧ get? stc2.priorityMap 0 = some 0 ∧ stc2 ≠ stc1 :=
  ⟨rfl, rfl, by decide⟩

/-- C3 amended.  With overwriting disabled and the key present, `set`
changes nothing EXCEPT the key's entry in the priority map, which is
unconditionally rewritten to the supplied priority (default 0) before
the guard returns; store, recency, TTL and tag associations of every
key are untouched. -/
theorem C3_overwrite_disabled_noop_except_priority (cfg : Config K V) (now : Nat)
    (key : K) (v : V) (o : SetOptions) (st : CacheState K V)
    (h1 : cfg.overWrite = false) (h2 : hasKey st.store key = true) :
    set cfg now key v o st = { st with priorityMap := jset st.priorityMap key o.priority } := by
  simp [set, h1, h2]

/-- C3 witness: the amended statement at the concrete overwrite-blocked
call of the counterexample. -/
theorem C3_witness :
    stc2 = { stc1 with priorityMap := jset stc1.priorityMap 0 0 } :=
  C3_overwrite_disabled_noop_except_priority cfgNoOW 2 0 20 {} stc1 rfl (by decide)

/-- C9.  Whenever a `customEvict` function is present — under ANY
strategy, since src/index.js:997 tests only the field — `evict`
delegates wholly to it: the next state is exactly the function's output
on `store` and `meta`; the `evictions` counter is not incremented and
the priority map (hence the priority/recency ranking of
src/index.js:1002-1019, which is never reached) is untouched. -/
theorem C9_custom_evict_delegation (cfg : Config K V) (st : CacheState K V)
    (f : JMap K V → JMap K Nat → JMap K V × JMap K Nat)
    (h : cfg.customEvict = some f) :
    evict cfg st = { st with store := (f st.store st.meta).1, meta := (f st.store st.meta).2 }
    ∧ (evict cfg st).evictions = st.evictions
    ∧ (evict cfg st).priorityMap = st.priorityMap := by
  have he := evict_custom cfg st f h
  exact ⟨he, by rw [he], by rw [he]⟩

/-- C9 witness: a store-clearing custom evictor attached to an LRU
cache is used verbatim by `evict`. -/
theorem C9_witness :
    evict cfgF st5 = { st5 with store := [], meta := st5.meta } ∧
      (evict cfgF st5).evictions = st5.evictions :=
  ⟨(C9_custom_evict_delegation cfgF st5 (fun _ m => ([], m)) rfl).1,
    (C9_custom_evict_delegation cfgF st5 (fun _ m => ([], m)) rfl).2.1⟩

/-- C10.  A snapshot carries no priority data (the `Snapshot` record has
no priority field, src/index.js:926-939), and `loadSnapshot` of a
snapshot — into any state, hence also via `clone()` — leaves the
priority map empty after `flush`: every restored key has the default
effective priority 0, so the eviction comparator degenerates to the
pure recency rule on such a state. -/
theorem C10_snapshot_drops_priorities (s0 st : CacheState K V) :
    ∃ r, loadSnapshot s0 (toRaw (snapshot st)) = Except.ok r
      ∧ r.priorityMap = []
      ∧ (∀ k, prioOf r k = 0)
      ∧ (∀ strat a b, evictLT strat r a b = timeCmpLT strat (timeOf r a) (timeOf r b))
      ∧ (clone st).priorityMap = []
      ∧ (∀ k, prioOf (clone st) k = 0) := by
  refine ⟨_, rfl, rfl, fun k => rfl, fun strat a b => ?_, rfl, fun k => rfl⟩
  simp [evictLT, prioOf, get?]

/-- C4 counterexample.  Under the CUSTOM strategy a do-nothing custom
evictor is legal; inserting a fresh key into the full cache invokes the
eviction dispatcher (src/index.js:263-265), which delegates and returns
(src/index.js:997-1000): no entry is removed (the store then exceeds
the limit) and `evictions` stays 0 — refuting "exactly one entry ...
under every configured strategy, including CUSTOM". -/
theorem C4_counterexample_custom_evicts_nothing :
    cfg4.limit = 1 ∧ st4a.store.length = 1 ∧ st4b.store.length = 2 ∧ st4b.evictions = 0 :=
  ⟨rfl, rfl, rfl, rfl⟩

/-- C4 amended.  Without a custom evictor (in particular under LRU,
FIFO and MFU) every invocation of `evict` on a nonempty store removes
exactly one entry — the ranked victim — and increments `evictions` by
exactly one; with a `customEvict` function the dispatcher instead
delegates wholly to it (see the C9 analysis), performs no removal of
its own and never touches the counter. -/
theorem C4_ranked_evict_exactly_one (cfg : Config K V) (st : CacheState K V)
    (h1 : cfg.customEvict = none) (h2 : st.store ≠ []) :
    ∃ v, hasKey st.store v = true
      ∧ (evict cfg st).store = jdel st.store v
      ∧ (evict cfg st).store.length + 1 = st.store.length
      ∧ (evict cfg st).evictions = st.evictions + 1 := by
  obtain ⟨e, rest, hs⟩ : ∃ e rest, st.store = e :: rest := by
    cases hst : st.store with
    | nil => exact absurd hst h2
    | cons e rest => exact ⟨e, rest, rfl⟩
  have hv : victimOf cfg st =
      some (leftmostMin (evictLT cfg.strategy st) e.1 (rest.map Prod.fst)) := by
    unfold victimOf
    rw [hs]
  have hkey : hasKey st.store (leftmostMin (evictLT cfg.strategy st) e.1 (rest.map Prod.fst)) = true :=
    (hasKey_iff_mem _ _).mpr (victimOf_mem cfg st _ hv)
  refine ⟨leftmostMin (evictLT cfg.strategy st) e.1 (rest.map Prod.fst), hkey, ?_, ?_, ?_⟩
  · rw [evict_ranked cfg st _ h1 hv]
    exact delete_snd_store _ st
  · rw [evict_ranked cfg st _ h1 hv]
    show ((delete _ st).2).store.length + 1 = st.store.length
    rw [delete_snd_store _ st]
    exact jdel_length st.store _ hkey
  · rw [evict_ranked cfg st _ h1 hv]
    show ((delete _ st).2).evictions + 1 = st.evictions + 1
    rw [delete_snd_evictions _ st]

/-- C4 witness: the amended statement on the concrete at-capacity LRU
cache `st5`. -/
theorem C4_witness :
    (evict cfg5 st5).store.length + 1 = st5.store.length
      ∧ (evict cfg5 st5).evictions = st5.evictions + 1 := by
  obtain ⟨v, hv⟩ := C4_ranked_evict_exactly_one cfg5 st5 rfl (by decide)
  exact ⟨hv.2.2.1, hv.2.2.2⟩

/-- C5.  The ranked eviction victim (no custom evictor; in particular
under LRU, FIFO and MFU) minimises the lexicographic key (priority,
strategy-oriented recency): its priority is a lower bound of all
priorities; among equal priorities it has the oldest `recordedAt` for
LRU/FIFO and the newest for MFU; and when all priorities are pairwise
distinct it is exactly the strictly-lowest-priority entry, regardless
of recency.  `evict` then deletes precisely this victim and increments
`evictions`. -/
theorem C5_victim_lowest_priority_then_recency (cfg : Config K V) (st : CacheState K V)
    (v : K) (h1 : cfg.customEvict = none) (hv : victimOf cfg st = some v) :
    hasKey st.store v = true
    ∧ evict cfg st = { (delete v st).2 with evictions := ((delete v st).2).evictions + 1 }
    ∧ (∀ k ∈ keyList st.store, prioOf st v ≤ prioOf st k)
    ∧ (∀ k ∈ keyList st.store, prioOf st v = prioOf st k →
        (((cfg.strategy = Strategy.LRU ∨ cfg.strategy = Strategy.FIFO) →
            timeOf st v ≤ timeOf st k)
          ∧ (cfg.strategy = Strategy.MFU → timeOf st k ≤ timeOf st v)))
    ∧ ((∀ k1 ∈ keyList st.store, ∀ k2 ∈ keyList st.store,
          k1 ≠ k2 → prioOf st k1 ≠ prioOf st k2) →
        ∀ k ∈ keyList st.store, k ≠ v → prioOf st v < prioOf st k) := by
  have hmem := victimOf_mem cfg st v hv
  have hmin := victimOf_min cfg st v hv
  have hprio_le : ∀ k ∈ keyList st.store, prioOf st v ≤ prioOf st k := by
    intro k hk
    rcases (rank_le_iff cfg.strategy st v k).mp (hmin k hk) with h | ⟨he, _⟩
    · exact le_of_lt h
    · exact le_of_eq he
  refine ⟨(hasKey_iff_mem _ _).mpr hmem, evict_ranked cfg st v h1 hv, hprio_le, ?_, ?_⟩
  · intro k hk hpe
    rcases (rank_le_iff cfg.strategy st v k).mp (hmin k hk) with h | ⟨_, hadj⟩
    · rw [hpe] at h
      exact absurd h (lt_irrefl _)
    · constructor
      · rintro (hstrat | hstrat) <;> rw [hstrat] at hadj <;>
          simp only [adjTime] at hadj <;> exact_mod_cast hadj
      · intro hstrat
        rw [hstrat] at hadj
        simp only [adjTime] at hadj
        exact_mod_cast neg_le_neg_iff.mp hadj
  · intro hdist k hk hkv
    exact lt_of_le_of_ne (hprio_le k hk) (hdist v hmem k hk fun he => hkv he.symm)

/-- C5 witness: in `st5` key 0 is the most recently used but carries the
strictly lowest priority, and it is the chosen victim. -/
theorem C5_witness :
    hasKey st5.store 0 = true ∧ prioOf st5 0 < prioOf st5 1 := by
  have h := C5_victim_lowest_priority_then_recency cfg5 st5 0 rfl rfl
  exact ⟨h.1, h.2.2.2.2 (by decide) 1 (by decide) (by decide)⟩

/-- C8 counterexample.  At the exact deadline instant (`now` equals the
stored deadline 5) `ttlExpire` reports -1, not the claimed remaining
0 ms, even though `get` at the very same instant still treats the entry
as live (its expiry test is strict, src/index.js:302) and returns the
value. -/
theorem C8_counterexample_exact_deadline :
    get? st8.ttlMap 0 = some 5 ∧ hasKey st8.store 0 = true
      ∧ ttlExpire 5 0 st8 = -1 ∧ (get cfgD 5 0 st8).1 = some 1 :=
  ⟨rfl, rfl, rfl, rfl⟩

/-- C8 amended.  `ttlExpire` returns -1 when the key is absent or has no
(or a zero) deadline; it returns the positive remaining time only while
the deadline is strictly in the future; and it returns -1 at or past
the deadline — including at the exact deadline instant, where `get`
still treats the entry as unexpired (expiry is `now > deadline`,
strictly) and serves a hit.  A remaining time of 0 is never reported. -/
theorem C8_ttlExpire_characterisation (cfg : Config K V) (st : CacheState K V)
    (key : K) (now : Nat) :
    (hasKey st.store key = false → ttlExpire now key st = -1)
    ∧ (get? st.ttlMap key = none → ttlExpire now key st = -1)
    ∧ (∀ d, get? st.ttlMap key = some d → hasKey st.store key = true → d ≠ 0 →
        (now : Int) < d → ttlExpire now key st = d - now ∧ 0 < ttlExpire now key st)
    ∧ (∀ d, get? st.ttlMap key = some d → d ≤ (now : Int) → ttlExpire now key st = -1)
    ∧ (∀ d, get? st.ttlMap key = some d → hasKey st.store key = true → d ≠ 0 →
        (now : Int) = d →
        ttlExpire now key st = -1
        ∧ (get cfg now key st).1 = get? st.store key
        ∧ (get cfg now key st).2.hits = st.hits + 1) := by
  refine ⟨?_, ?_, ?_, ?_, ?_⟩
  · intro h
    simp [ttlExpire, h]
  · intro h
    simp [ttlExpire, h, jsFalsyInt]
  · intro d hd hk hz hlt
    have he : ttlExpire now key st = d - now := by
      simp [ttlExpire, hd, hk, jsFalsyInt, hz, hlt]
    exact ⟨he, by rw [he]; exact sub_pos.mpr hlt⟩
  · intro d hd hle
    by_cases hk : hasKey st.store key <;> by_cases hz : d = 0 <;>
      simp [ttlExpire, hd, hk, hz, jsFalsyInt, not_lt.mpr hle]
  · intro d hd hk hz he
    have h1 : ttlExpire now key st = -1 := by
      simp [ttlExpire, hd, hk, hz, jsFalsyInt, ← he]
    have hexp : (!jsFalsyInt (get? st.ttlMap key) &&
        decide (((get? st.ttlMap key).getD 0 : Int) < (now : Int))) = false := by
      simp [hd, jsFalsyInt, hz, ← he]
    refine ⟨h1, ?_, ?_⟩ <;>
      cases hug : cfg.updateOnGet <;>
        simp [get, hk, hexp, hug]

/-- C8 witness: the amended characterisation applied at the exact
deadline instant of `st8`. -/
theorem C8_witness :
    ttlExpire 5 0 st8 = -1 ∧ (get cfgD 5 0 st8).2.hits = st8.hits + 1 := by
  have h := (C8_ttlExpire_characterisation cfgD st8 0 5).2.2.2.2 5 rfl rfl (by decide) (by decide)
  exact ⟨h.1, h.2.2⟩

/-! Field-level facts about `renameMid`, all under "newKey is fresh and
the store is below capacity" so that the inner `set` neither returns
early nor evicts. -/

theorem renameMid_store (cfg : Config K V) (now : Nat) (oldKey newKey : K)
    (value : V) (st : CacheState K V)
    (h2 : hasKey st.store newKey = false) (hcap : st.store.length < cfg.limit) :
    (renameMid cfg now oldKey newKey value st).store = jset st.store newKey value := by
  simp only [renameMid]
  rw [set_eq cfg now newKey value {} st (Or.inr h2) (Or.inl hcap)]
  rcases get? st.meta oldKey with _ | m <;> rcases get? st.ttlMap oldKey with _ | d <;>
    rcases get? st.keyTags oldKey with _ | ts <;> (repeat' split) <;> rfl

theorem renameMid_priorityMap (cfg : Config K V) (now : Nat) (oldKey newKey : K)
    (value : V) (st : CacheState K V)
    (h2 : hasKey st.store newKey = false) (hcap : st.store.length < cfg.limit) :
    (renameMid cfg now oldKey newKey value st).priorityMap = jset st.priorityMap newKey 0 := by
  simp only [renameMid]
  rw [set_eq cfg now newKey value {} st (Or.inr h2) (Or.inl hcap)]
  rcases get? st.meta oldKey with _ | m <;> rcases get? st.ttlMap oldKey with _ | d <;>
    rcases get? st.keyTags oldKey with _ | ts <;> (repeat' split) <;> rfl

theorem renameMid_meta_new (cfg : Config K V) (now : Nat) (oldKey newKey : K)
    (value : V) (st : CacheState K V) (m : Nat)
    (h2 : hasKey st.store newKey = false) (hcap : st.store.length < cfg.limit)
    (hm : get? st.meta oldKey = some m) (hm0 : m ≠ 0) :
    get? (renameMid cfg now oldKey newKey value st).meta newKey = some m := by
  simp only [renameMid]
  rw [set_eq cfg now newKey value {} st (Or.inr h2) (Or.inl hcap), hm]
  rcases get? st.ttlMap oldKey with _ | d <;>
    rcases get? st.keyTags oldKey with _ | ts <;> (repeat' split) <;>
    simp_all [get?_jset_self]

theorem renameMid_ttl_some_new (cfg : Config K V) (now : Nat) (oldKey newKey : K)
    (value : V) (st : CacheState K V) (d : Int)
    (h2 : hasKey st.store newKey = false) (hcap : st.store.length < cfg.limit)
    (hd : get? st.ttlMap oldKey = some d) (hd0 : d ≠ 0) :
    get? (renameMid cfg now oldKey newKey value st).ttlMap newKey = some d := by
  simp only [renameMid]
  rw [set_eq cfg now newKey value {} st (Or.inr h2) (Or.inl hcap), hd]
  rcases get? st.meta oldKey with _ | m <;>
    rcases get? st.keyTags oldKey with _ | ts <;> (repeat' split) <;>
    simp_all [get?_jset_self]

theorem renameMid_ttlMap_of_none (cfg : Config K V) (now : Nat) (oldKey newKey : K)
    (value : V) (st : CacheState K V)
    (h2 : hasKey st.store newKey = false) (hcap : st.store.length < cfg.limit)
    (hd : get? st.ttlMap oldKey = none) (hcfg : cfg.ttl = none) :
    (renameMid cfg now oldKey newKey value st).ttlMap = jdel st.ttlMap newKey := by
  simp only [renameMid]
  rw [set_eq cfg now newKey value {} st (Or.inr h2) (Or.inl hcap), hd]
  have hw : ttlWrite cfg ({} : SetOptions) now newKey st.ttlMap = jdel st.ttlMap newKey := by
    simp [ttlWrite, defaultTTLOf, hcfg]
  rcases get? st.meta oldKey with _ | m <;>
    rcases get? st.keyTags oldKey with _ | ts <;> (repeat' split) <;>
    simp_all [hw]

theorem renameMid_keyTags_new (cfg : Config K V) (now : Nat) (oldKey newKey : K)
    (value : V) (st : CacheState K V) (ts : List String)
    (h2 : hasKey st.store newKey = false) (hcap : st.store.length < cfg.limit)
    (htg : get? st.keyTags oldKey = some ts) (hnds : ts.Nodup) :
    get? (renameMid cfg now oldKey newKey value st).keyTags newKey = some ts := by
  simp only [renameMid]
  rw [set_eq cfg now newKey value {} st (Or.inr h2) (Or.inl hcap), htg]
  rcases get? st.meta oldKey with _ | m <;>
    rcases get? st.ttlMap oldKey with _ | d <;> (repeat' split) <;>
    simp_all [get?_jset_self] <;>
    exact setFromList_eq_self hnds

/-- C6.  `rename` fails as a strict no-op (returns `false`, state
untouched) when `oldKey` is absent or `newKey` present.  Otherwise —
below capacity, so the inner re-insertion cannot evict — it returns
`true`, re-inserts the entry under `newKey` carrying over the value,
the recency timestamp (when nonzero, `if (meta)`), the TTL deadline
(when nonzero, `if (ttl)`; and no deadline stays no deadline when the
cache has no default TTL — a cache-wide default TTL would stamp the
renamed key on this path), and the tag set; `oldKey` is removed, and
the priority is NOT carried over: `newKey` ends at the default
priority 0 written by the inner `set(newKey, value)` call while
`delete(oldKey)` discards the old priority. -/
theorem C6_rename_semantics (cfg : Config K V) (now : Nat) (oldKey newKey : K)
    (st : CacheState K V) :
    (∀ (_ : hasKey st.store oldKey = false ∨ hasKey st.store newKey = true),
        rename cfg now oldKey newKey st = (false, st))
    ∧ (hasKey st.store oldKey = true → hasKey st.store newKey = false →
        st.store.length < cfg.limit → (keyList st.store).Nodup →
        (keyList st.ttlMap).Nodup →
        (rename cfg now oldKey newKey st).1 = true
        ∧ get? (rename cfg now oldKey newKey st).2.store newKey = get? st.store oldKey
        ∧ get? (rename cfg now oldKey newKey st).2.store oldKey = none
        ∧ get? (rename cfg now oldKey newKey st).2.priorityMap newKey = some 0
        ∧ (∀ m, get? st.meta oldKey = some m → m ≠ 0 →
            get? (rename cfg now oldKey newKey st).2.meta newKey = some m)
        ∧ (∀ d, get? st.ttlMap oldKey = some d → d ≠ 0 →
            get? (rename cfg now oldKey newKey st).2.ttlMap newKey = some d)
        ∧ (get? st.ttlMap oldKey = none → cfg.ttl = none →
            get? (rename cfg now oldKey newKey st).2.ttlMap newKey = none)
        ∧ (∀ ts, get? st.keyTags oldKey = some ts → ts.Nodup →
            get? (rename cfg now oldKey newKey st).2.keyTags newKey = some ts)) := by
  constructor
  · rintro (h | h) <;> simp [rename, h]
  · intro h1 h2 hcap hndS hndT
    have hne : newKey ≠ oldKey := by
      intro he
      rw [he, h1] at h2
      exact Bool.noConfusion h2
    obtain ⟨value, hval⟩ : ∃ v, get? st.store oldKey = some v := by
      cases hg : get? st.store oldKey with
      | none => rw [hasKey, hg] at h1; exact Bool.noConfusion h1
      | some v => exact ⟨v, rfl⟩
    have hguard : (!hasKey st.store oldKey || hasKey st.store newKey) = false := by
      rw [h1, h2]
      rfl
    have hr : rename cfg now oldKey newKey st =
        (true, (delete oldKey (renameMid cfg now oldKey newKey value st)).2) := by
      simp [rename, hguard, hval]
    have hnone : get? st.store newKey = none := by
      cases hg : get? st.store newKey with
      | none => rfl
      | some v => rw [hasKey, hg] at h2; exact Bool.noConfusion h2
    refine ⟨?_, ?_, ?_, ?_, ?_, ?_, ?_, ?_⟩
    · rw [hr]
    · rw [hr, delete_snd_store, get?_jdel_ne _ hne,
        renameMid_store cfg now oldKey newKey value st h2 hcap, get?_jset_self, hval]
    · rw [hr, delete_snd_store, renameMid_store cfg now oldKey newKey value st h2 hcap,
        jset_of_get?_none st.store newKey value hnone]
      apply get?_jdel_self
      simp only [keyList, List.map_append, List.map_cons, List.map_nil]
      rw [List.nodup_append]
      refine ⟨hndS, List.nodup_singleton newKey, ?_⟩
      intro a ha hb
      rw [List.mem_singleton] at hb
      subst hb
      exact (get?_eq_none_iff st.store a).mp hnone ha
    · rw [hr, delete_snd_priorityMap, get?_jdel_ne _ hne,
        renameMid_priorityMap cfg now oldKey newKey value st h2 hcap, get?_jset_self]
    · intro m hm hm0
      rw [hr, delete_snd_meta, get?_jdel_ne _ hne]
      exact renameMid_meta_new cfg now oldKey newKey value st m h2 hcap hm hm0
    · intro d hd hd0
      rw [hr, delete_snd_ttlMap, get?_jdel_ne _ hne]
      exact renameMid_ttl_some_new cfg now oldKey newKey value st d h2 hcap hd hd0
    · intro hd hcfg
      rw [hr, delete_snd_ttlMap, get?_jdel_ne _ hne,
        renameMid_ttlMap_of_none cfg now oldKey newKey value st h2 hcap hd hcfg]
      exact get?_jdel_self st.ttlMap newKey hndT
    · intro ts htg hnds
      rw [hr, get?_delete_keyTags_ne oldKey newKey _ hne]
      exact renameMid_keyTags_new cfg now oldKey newKey value st ts h2 hcap htg hnds

/-- C6 witness: renaming key 0 (value 10, recency 1, deadline 51,
priority 7, tag "a") to key 1 in `st6` carries everything but the
priority, which resets to 0, and removes key 0. -/
theorem C6_witness :
    (rename cfgD 2 0 1 st6).1 = true
    ∧ get? (rename cfgD 2 0 1 st6).2.store 1 = some 10
    ∧ get? (rename cfgD 2 0 1 st6).2.store 0 = none
    ∧ get? (rename cfgD 2 0 1 st6).2.priorityMap 1 = some 0
    ∧ get? (rename cfgD 2 0 1 st6).2.meta 1 = some 1
    ∧ get? (rename cfgD 2 0 1 st6).2.ttlMap 1 = some 51
    ∧ get? (rename cfgD 2 0 1 st6).2.keyTags 1 = some ["a"] := by
  have h := (C6_rename_semantics cfgD 2 0 1 st6).2 (by decide) (by decide) (by decide)
    (by decide) (by decide)
  exact ⟨h.1, h.2.1.trans (by decide), h.2.2.1, h.2.2.2.1,
    h.2.2.2.2.1 1 (by decide) (by decide),
    h.2.2.2.2.2.1 51 (by decide) (by decide),
    h.2.2.2.2.2.2.2 ["a"] (by decide) (by decide)⟩

/-- C7.  Restoring the snapshot of any well-formed state into a freshly
constructed engine reproduces the state exactly — same keys and values
in the same iteration order, same recency and TTL maps, same tag
associations in both directions, same counters; only the (unexported)
priority map comes back empty. -/
theorem C7_snapshot_roundtrip (st : CacheState K V) (h : WF st) :
    loadSnapshot (initState : CacheState K V) (toRaw (snapshot st)) =
      Except.ok { st with priorityMap := [] } := by
  obtain ⟨h1, h2, h3, h4, h5, h6, h7⟩ := h
  have hd := foldl_jset_append st.store [] (fun p _ => rfl) h1
  have hm := foldl_jset_append st.meta [] (fun p _ => rfl) h2
  have ht := foldl_jset_append st.ttlMap [] (fun p _ => rfl) h3
  have htm := foldl_jset_setFromList_append st.tagMap [] (fun p _ => rfl) h4
    (fun p hp => setFromList_eq_self (h6 p hp))
  have hkt := foldl_jset_setFromList_append st.keyTags [] (fun p _ => rfl) h5
    (fun p hp => setFromList_eq_self (h7 p hp))
  simp only [List.nil_append] at hd hm ht htm hkt
  simp [loadSnapshot, toRaw, snapshot, SnapField.toList?, flush, initState,
    hd, hm, ht, htm, hkt]

/-- C7 witness: the round trip at the concrete populated state `st7`. -/
theorem C7_witness :
    loadSnapshot (initState : CacheState Nat Int) (toRaw (snapshot st7)) =
      Except.ok { st7 with priorityMap := [] } :=
  C7_snapshot_roundtrip st7 (by decide)

end AlisaCache
